import Mathlib

/-
Verification of the `intro-domain-driven/resources` example: a layered
application managing named resources backed by a JSON file.

The Python code is embedded shallowly:
* `ResourceType`, `Resource` model `resources/domain/entites/resource.py`;
* mutable Python objects live in an explicit heap (`Heap`, a list of
  `Resource` cells addressed by index), so that `copy.deepcopy` in the
  repositories and in-place mutation (`set_name`) keep their aliasing
  behaviour;
* Python `dict` is an association list with insertion-order update
  semantics (`dictGet` / `dictSet`);
* the file system is a map from path to parsed JSON document (`FSt`);
  JSON (de)serialisation is modelled at the level of the already-parsed
  document (`Store`), since `json.dumps` / `json.loads` round-trip it;
* exceptions (`KeyError`, `ValueError`, `TypeError`) are `Option.none`.
-/

/-- Resource identifiers (`uuid.UUID`), modelled by their string form. -/
abbrev RUUID := String

/-- File-system paths (`pathlib.Path`), modelled as strings. -/
abbrev FPath := String

/-- `ResourceType(str, enum.Enum)` with members `Corpus = "corpus"` and
`Lexicon = "lexicon"` (`resource.py`). -/
inductive ResourceType where
  | Corpus
  | Lexicon
  deriving DecidableEq, Repr

/-- The `.value` of a `ResourceType` member. -/
def ResourceType.value : ResourceType → String
  | .Corpus => "corpus"
  | .Lexicon => "lexicon"

/-- The enum call `ResourceType(s)` on a string: looks the member up by
value, raising `ValueError` (`none`) when no member matches. -/
def ResourceType.ofString (s : String) : Option ResourceType :=
  if s = "corpus" then some ResourceType.Corpus
  else if s = "lexicon" then some ResourceType.Lexicon
  else none

/-- The state of a `Resource` object (`resource.py`): fields `_id`,
`_name`, `_type`, `_comment`, read through the `id`/`name`/`type`/`comment`
properties. -/
structure Resource where
  id : RUUID
  name : String
  type_ : ResourceType
  comment : Option String
  deriving DecidableEq, Repr

/-- `Resource.__init__(self, *, id, name, type_, comment=None)`: the
`type_` argument is either a `ResourceType` or a string coerced by
`ResourceType(type_)`, which raises `ValueError` (`none`) on an
unrecognised string. -/
def Resource.make (id : RUUID) (name : String) (ty : ResourceType ⊕ String)
    (comment : Option String) : Option Resource :=
  match ty with
  | Sum.inl t => some ⟨id, name, t, comment⟩
  | Sum.inr s => (ResourceType.ofString s).map fun t => ⟨id, name, t, comment⟩

/-- `Resource.set_name`: unconditionally overwrites `_name` (the value-level
effect on the object's state). -/
def Resource.set_name (r : Resource) (name : String) : Resource :=
  { r with name := name }

/-- Heap of `Resource` objects: a cell per live object, addressed by
index. References returned to callers are cell indices. -/
abbrev Heap := List Resource

/-- Dereference: the value currently stored in a cell. -/
def Heap.read (h : Heap) (ref : Nat) : Option Resource :=
  h[ref]?

/-- In-place update of a cell (no-op on a dangling reference, which does
not occur in the modelled runs). -/
def Heap.write (h : Heap) (ref : Nat) (v : Resource) : Heap :=
  h.set ref v

/-- Allocate a fresh cell holding `v`; returns the new heap and the new
cell's reference. -/
def Heap.alloc (h : Heap) (v : Resource) : Heap × Nat :=
  (h ++ [v], h.length)

/-- `copy.deepcopy` of a `Resource` object: a fresh cell holding the same
value (all `Resource` fields are immutable Python values). `none` on a
dangling reference. -/
def Heap.deepcopy (h : Heap) (ref : Nat) : Option (Heap × Nat) :=
  (h.read ref).map fun v => h.alloc v

/-- `resource.set_name(n)` performed on the object behind `ref`: an
in-place mutation of that cell. -/
def Heap.setNameAt (h : Heap) (ref : Nat) (name : String) : Heap :=
  match h.read ref with
  | some v => h.write ref (v.set_name name)
  | none => h

/-- Python `dict` lookup `d[k]` as an association-list search; `none` is
`KeyError`. -/
def dictGet {α β : Type} [DecidableEq α] (d : List (α × β)) (k : α) : Option β :=
  match d with
  | [] => none
  | (k', v) :: rest => if k' = k then some v else dictGet rest k

/-- Python `dict` assignment `d[k] = v`: overwrites in place when the key
exists (keeping its position), appends otherwise. -/
def dictSet {α β : Type} [DecidableEq α] (d : List (α × β)) (k : α) (v : β) :
    List (α × β) :=
  match d with
  | [] => [(k, v)]
  | (k', v') :: rest =>
      if k' = k then (k, v) :: rest else (k', v') :: dictSet rest k v

/-- The keys of a `dict`, in order. -/
def dictKeys {α β : Type} (d : List (α × β)) : List α :=
  d.map Prod.fst

/-- One parsed JSON object of the store: `{"name": ..., "type": ...}`. -/
structure StoreEntry where
  name : String
  type_ : String
  deriving DecidableEq, Repr

/-- A parsed JSON document: a mapping from string identifier to entry. -/
abbrev Store := List (String × StoreEntry)

/-- The file system: a mapping from path to the (parsed) JSON document
stored there. Reading a missing path fails. -/
abbrev FSt := List (FPath × Store)

def FSt.read (fs : FSt) (p : FPath) : Option Store :=
  dictGet fs p

def FSt.write (fs : FSt) (p : FPath) (s : Store) : FSt :=
  dictSet fs p s

/-- State of an `InMemoryResourceRepository` (`mem_resources.py`): the
`_resources` dict maps identifiers to references to heap cells. -/
structure InMemoryResourceRepository where
  resources : List (RUUID × Nat)
  deriving DecidableEq, Repr

/-- `InMemoryResourceRepository.save`: `self._resources[resource.id] =
copy.deepcopy(resource)`. The argument is a reference to the caller's
object; its current value is copied into a fresh cell and keyed by its
`id`. -/
def InMemoryResourceRepository.save (h : Heap) (repo : InMemoryResourceRepository)
    (ref : Nat) : Option (Heap × InMemoryResourceRepository) :=
  (h.read ref).map fun v =>
    let al := h.alloc v
    (al.1, ⟨dictSet repo.resources v.id al.2⟩)

/-- `InMemoryResourceRepository.get`: `copy.deepcopy(self._resources[id])`.
`none` is the `KeyError` on an absent identifier. -/
def InMemoryResourceRepository.get (h : Heap) (repo : InMemoryResourceRepository)
    (id : RUUID) : Option (Heap × Nat) :=
  (dictGet repo.resources id).bind fun ref => h.deepcopy ref

/-- The value a caller observes from `get`: dereferencing the returned
copy. -/
def InMemoryResourceRepository.getValue (h : Heap) (repo : InMemoryResourceRepository)
    (id : RUUID) : Option Resource :=
  (InMemoryResourceRepository.get h repo id).bind fun pr => pr.1.read pr.2

/-- State of a `JsonFileResourceRepository` (`json_file_resources.py`):
the remembered `_path` and the `_resources` dict. -/
structure JsonFileResourceRepository where
  path : FPath
  resources : List (RUUID × Nat)
  deriving DecidableEq, Repr

/-- Model of `JsonFileResourceRepository.load_from_path(self, path)`. The
body reads `self._path` — the `path` argument is never used. For each
entry of the document the loop runs
`Resource(id=uuid, name=data["name"], type=ResourceType(data["type"]))`,
but `Resource.__init__` declares keyword-only parameters `id`, `name`,
`type_`, `comment`: the keyword `type` is unexpected, so the call raises
`TypeError` on the first entry (after `UUID(id)` and
`ResourceType(data["type"])`, whose own failures also abort). An empty
document runs the loop zero times and succeeds, leaving the state
unchanged. -/
def JsonFileResourceRepository.load_from_path (fs : FSt) (h : Heap)
    (repo : JsonFileResourceRepository) (path : FPath) :
    Option (Heap × JsonFileResourceRepository) :=
  (FSt.read fs repo.path).bind fun store =>
    match store with
    | [] => some (h, repo)
    | _ :: _ => none

/-- `JsonFileResourceRepository.__init__(path)`: remembers the path,
starts from an empty `_resources` dict and runs `load_from_path`. -/
def JsonFileResourceRepository.make (fs : FSt) (h : Heap) (path : FPath) :
    Option (Heap × JsonFileResourceRepository) :=
  JsonFileResourceRepository.load_from_path fs h ⟨path, []⟩ path

/-- `JsonFileResourceRepository.get`: `copy.deepcopy(self._resources[id])`. -/
def JsonFileResourceRepository.get (h : Heap) (repo : JsonFileResourceRepository)
    (id : RUUID) : Option (Heap × Nat) :=
  (dictGet repo.resources id).bind fun ref => h.deepcopy ref

/-- `JsonFileResourceRepository.save`: `self._resources[resource.id] =
copy.deepcopy(resource)`. -/
def JsonFileResourceRepository.save (h : Heap) (repo : JsonFileResourceRepository)
    (ref : Nat) : Option (Heap × JsonFileResourceRepository) :=
  (h.read ref).map fun v =>
    let al := h.alloc v
    (al.1, { repo with resources := dictSet repo.resources v.id al.2 })

/-- The value a caller observes from `JsonFileResourceRepository.get`. -/
def JsonFileResourceRepository.getValue (h : Heap) (repo : JsonFileResourceRepository)
    (id : RUUID) : Option Resource :=
  (JsonFileResourceRepository.get h repo id).bind fun pr => pr.1.read pr.2

/-- The `to_disk` dict comprehension of `write_to_path`:
`{str(res.id): {"name": res.name, "type": str(res.type.value)} for res in
self._resources.values()}`, built left to right with dict-update
semantics. `none` on a dangling reference (does not occur in modelled
runs). -/
def JsonFileResourceRepository.to_disk (h : Heap) (rs : List (RUUID × Nat)) :
    Option Store :=
  rs.foldlM
    (fun acc p =>
      (h.read p.2).map fun v => dictSet acc v.id ⟨v.name, v.type_.value⟩)
    []

/-- `JsonFileResourceRepository.write_to_path(path=None)`: serialises the
in-memory mapping, updates `self._path` when a path is given, and writes
the document at (the possibly updated) `self._path`. -/
def JsonFileResourceRepository.write_to_path (fs : FSt) (h : Heap)
    (repo : JsonFileResourceRepository) (path : Option FPath) :
    Option (FSt × JsonFileResourceRepository) :=
  (JsonFileResourceRepository.to_disk h repo.resources).map fun st =>
    let repo' : JsonFileResourceRepository :=
      match path with
      | some p => { repo with path := p }
      | none => repo
    (FSt.write fs repo'.path st, repo')

/-- The serialisation of the mapping described by the specification: each
stored entry becomes one document entry, keyed by the stringified
identifier, carrying the name and the type's raw string value (the
comment is omitted). Entries whose reference dangles are skipped. -/
def specSerialize (h : Heap) (rs : List (RUUID × Nat)) : Store :=
  rs.filterMap fun p =>
    (h.read p.2).map fun v => (v.id, ⟨v.name, v.type_.value⟩)

/-- The `UpdateName` command (`updating_name.py`): fields `id`, `name`. -/
structure UpdateName where
  id : RUUID
  name : String
  deriving DecidableEq, Repr

/-- `UpdatingName.execute(input_dto)`: `resource = self.repo.get(...)`,
`resource.set_name(...)` (an in-place mutation of the returned copy),
`self.repo.save(resource)`. Instantiated at a `JsonFileResourceRepository`
as wired by `bootstrap_app`. -/
def UpdatingName.execute (h : Heap) (repo : JsonFileResourceRepository)
    (cmd : UpdateName) : Option (Heap × JsonFileResourceRepository) :=
  (JsonFileResourceRepository.get h repo cmd.id).bind fun pr =>
    let h2 := Heap.setNameAt pr.1 pr.2 cmd.name
    JsonFileResourceRepository.save h2 repo pr.2

/-- The runtime types of command objects; the application defines exactly
one command class, `UpdateName`. -/
inductive CommandType where
  | UpdateNameT
  deriving DecidableEq, Repr

/-- Command objects dispatched on the bus. -/
inductive AppCommand where
  | updateName (cmd : UpdateName)
  deriving DecidableEq, Repr

/-- `type(cmd)`: the runtime type of a command object. -/
def AppCommand.typeOf : AppCommand → CommandType
  | .updateName _ => CommandType.UpdateNameT

/-- Registered handler objects; the application registers exactly one,
an `UpdatingName` instance (over the JSON-file repository). -/
inductive Handler where
  | updatingName
  deriving DecidableEq, Repr

/-- `handler.execute(cmd)`. -/
def Handler.execute (hd : Handler) (h : Heap) (repo : JsonFileResourceRepository)
    (cmd : AppCommand) : Option (Heap × JsonFileResourceRepository) :=
  match hd, cmd with
  | .updatingName, .updateName c => UpdatingName.execute h repo c

/-- `CommandBus` (`main.py`): the `_cmp_map` dict from command type to
handler. -/
structure CommandBus where
  cmp_map : List (CommandType × Handler)
  deriving DecidableEq, Repr

/-- `CommandBus.register(cmd_type, cmd_handler)`. -/
def CommandBus.register (bus : CommandBus) (t : CommandType) (hd : Handler) :
    CommandBus :=
  ⟨dictSet bus.cmp_map t hd⟩

/-- `CommandBus.dispatch(cmd)`: `handler = self._cmp_map[type(cmd)]`
(`KeyError`, i.e. `none`, when unregistered), then `handler.execute(cmd)`. -/
def CommandBus.dispatch (bus : CommandBus) (h : Heap)
    (repo : JsonFileResourceRepository) (cmd : AppCommand) :
    Option (Heap × JsonFileResourceRepository) :=
  (dictGet bus.cmp_map cmd.typeOf).bind fun hd => hd.execute h repo cmd

/-- `ResourceDto` (`application/queries/resources.py`): id, name, type as
plain strings. -/
structure ResourceDto where
  id : String
  name : String
  type_ : String
  deriving DecidableEq, Repr

/-- State of a `JsonFileListResources` query object. -/
structure JsonFileListResources where
  path : FPath
  deriving DecidableEq, Repr

/-- `JsonFileListResources.query()`: re-reads the file and maps every
entry to a `ResourceDto` verbatim (no domain parsing). -/
def JsonFileListResources.query (fs : FSt) (q : JsonFileListResources) :
    Option (List ResourceDto) :=
  (FSt.read fs q.path).map fun store =>
    store.map fun pr => ⟨pr.1, pr.2.name, pr.2.type_⟩

/-- A repository entry is coherent with the heap: its reference resolves
and the stored object's `id` equals the dict key. -/
def refOK (h : Heap) (p : RUUID × Nat) : Bool :=
  match h.read p.2 with
  | some v => v.id == p.1
  | none => false

/-- Well-formedness of a repository's `_resources` dict over a heap: keys
are distinct (Python dict semantics) and every entry is coherent. Both
`load_from_path` and `save` maintain it, since both key an entry by the
stored resource's own `id`. -/
def RepoWF (h : Heap) (rs : List (RUUID × Nat)) : Prop :=
  (dictKeys rs).Nodup ∧ ∀ p ∈ rs, refOK h p = true

instance (h : Heap) (rs : List (RUUID × Nat)) : Decidable (RepoWF h rs) := by
  unfold RepoWF
  exact instDecidableAnd

/-! ## Heap and dict lemmas -/

theorem Heap.read_lt_length {h : Heap} {r : Nat} {v : Resource}
    (hv : h.read r = some v) : r < h.length :=
  (List.getElem?_eq_some.mp hv).1

theorem Heap.read_append_left {h : Heap} (l : List Resource) {r : Nat}
    (hr : r < h.length) : Heap.read (h ++ l) r = h.read r :=
  List.getElem?_append_left hr

theorem Heap.read_alloc_new (h : Heap) (v : Resource) :
    Heap.read (h.alloc v).1 (h.alloc v).2 = some v :=
  List.getElem?_concat_length h v

theorem Heap.read_write_ne (h : Heap) {r r' : Nat} (v : Resource)
    (hne : r ≠ r') : (h.write r v).read r' = h.read r' :=
  List.getElem?_set_ne hne

theorem Heap.read_setNameAt_ne (h : Heap) {r r' : Nat} (n : String)
    (hne : r ≠ r') : (h.setNameAt r n).read r' = h.read r' := by
  unfold Heap.setNameAt
  cases hv : h.read r with
  | none => rfl
  | some v => exact Heap.read_write_ne h _ hne

theorem dictGet_set_self {α β : Type} [DecidableEq α] (d : List (α × β))
    (k : α) (v : β) : dictGet (dictSet d k v) k = some v := by
  induction d with
  | nil => simp [dictGet, dictSet]
  | cons p rest ih =>
      by_cases hk : p.1 = k
      · simp [dictGet, dictSet, hk]
      · simp [dictGet, dictSet, hk, ih]

theorem dictGet_set_ne {α β : Type} [DecidableEq α] (d : List (α × β))
    {k k' : α} (v : β) (hne : k ≠ k') :
    dictGet (dictSet d k v) k' = dictGet d k' := by
  induction d with
  | nil => simp [dictGet, dictSet, hne]
  | cons p rest ih =>
      by_cases hk : p.1 = k
      · simp [dictGet, dictSet, hk, hne]
      · simp [dictGet, dictSet, hk, ih]

theorem dictGet_mem {α β : Type} [DecidableEq α] {d : List (α × β)}
    {k : α} {v : β} (hv : dictGet d k = some v) : (k, v) ∈ d := by
  induction d with
  | nil => simp [dictGet] at hv
  | cons p rest ih =>
      by_cases hk : p.1 = k
      · simp [dictGet, hk] at hv
        subst hk
        subst hv
        simp
      · simp [dictGet, hk] at hv
        exact List.mem_cons_of_mem p (ih hv)

theorem dictSet_fresh {α β : Type} [DecidableEq α] {d : List (α × β)}
    {k : α} (v : β) (hk : k ∉ dictKeys d) : dictSet d k v = d ++ [(k, v)] := by
  induction d with
  | nil => rfl
  | cons p rest ih =>
      have hcons : dictKeys (p :: rest) = p.1 :: dictKeys rest := rfl
      rw [hcons] at hk
      have hk1 : ¬p.1 = k := fun he => hk (he ▸ List.mem_cons_self p.1 (dictKeys rest))
      have hk2 : k ∉ dictKeys rest := fun he => hk (List.mem_cons_of_mem p.1 he)
      simp [dictSet, hk1, ih hk2]

/-- What a caller observes through `get` is the stored value itself: the
deep copy returned by `get` dereferences to the value behind the stored
reference. -/
theorem mem_getValue_eq (h : Heap)
    (repo : InMemoryResourceRepository) (id : RUUID) :
    InMemoryResourceRepository.getValue h repo id =
      (dictGet repo.resources id).bind h.read := by
  unfold InMemoryResourceRepository.getValue InMemoryResourceRepository.get
  cases hr : dictGet repo.resources id with
  | none => rfl
  | some r =>
      simp only [Option.some_bind, Heap.deepcopy]
      cases hv : h.read r with
      | none => simp [hv]
      | some v => simp [hv, Heap.read_alloc_new h v]

theorem json_getValue_eq (h : Heap)
    (repo : JsonFileResourceRepository) (id : RUUID) :
    JsonFileResourceRepository.getValue h repo id =
      (dictGet repo.resources id).bind h.read := by
  unfold JsonFileResourceRepository.getValue JsonFileResourceRepository.get
  cases hr : dictGet repo.resources id with
  | none => rfl
  | some r =>
      simp only [Option.some_bind, Heap.deepcopy]
      cases hv : h.read r with
      | none => simp [hv]
      | some v => simp [hv, Heap.read_alloc_new h v]

/-- A well-formed repository entry found by lookup resolves in the heap to
a value carrying the key as its `id`. -/
theorem RepoWF.lookup {h : Heap} {rs : List (RUUID × Nat)} (hwf : RepoWF h rs)
    {id : RUUID} {r : Nat} (hr : dictGet rs id = some r) :
    ∃ v, h.read r = some v ∧ v.id = id ∧ r < h.length := by
  have hmem := dictGet_mem hr
  have hok := hwf.2 _ hmem
  unfold refOK at hok
  cases hv : h.read r with
  | none => rw [hv] at hok; exact absurd hok (by simp)
  | some v =>
      rw [hv] at hok
      simp at hok
      exact ⟨v, rfl, hok, Heap.read_lt_length hv⟩

/-! ## Concrete fixtures (the store used by the integration test and the
specification's end-to-end scenario) -/

def uuid0 : RUUID := "53dd4178-17fa-4725-a5ef-1a217e9946b9"

def store0 : Store := [(uuid0, ⟨"NOT SET", "lexicon"⟩)]

def fs0 : FSt := [("data.json", store0)]

def jrepo0 : JsonFileResourceRepository := ⟨"data.json", [(uuid0, 0)]⟩

/-! ## Claims -/

/-- C3: constructing a `Resource` from a valid triple — the type given as
an enumeration member or as one of the strings accepted by
`ResourceType` — succeeds, and the `id`/`name`/`type` accessors return
exactly the constructed values; an unrecognised type string makes the
construction fail (`ValueError`). -/
theorem resource_construction_roundtrip (id : RUUID) (name : String)
    (comment : Option String) :
    (∀ t : ResourceType, ∃ r, Resource.make id name (Sum.inl t) comment = some r ∧
      r.id = id ∧ r.name = name ∧ r.type_ = t) ∧
    (∀ s t, ResourceType.ofString s = some t →
      ∃ r, Resource.make id name (Sum.inr s) comment = some r ∧
        r.id = id ∧ r.name = name ∧ r.type_ = t) ∧
    (∀ s, ResourceType.ofString s = none →
      Resource.make id name (Sum.inr s) comment = none) := by
  refine ⟨fun t => ⟨⟨id, name, t, comment⟩, rfl, rfl, rfl, rfl⟩,
    fun s t hs => ⟨⟨id, name, t, comment⟩, by simp [Resource.make, hs], rfl, rfl, rfl⟩,
    fun s hs => by simp [Resource.make, hs]⟩

theorem resource_construction_roundtrip_witness :
    ResourceType.ofString "corpus" = some ResourceType.Corpus ∧
    (∃ r, Resource.make "id0" "Corpus One" (Sum.inr "corpus") none = some r ∧
      r.id = "id0" ∧ r.name = "Corpus One" ∧ r.type_ = ResourceType.Corpus) ∧
    Resource.make "id0" "Corpus One" (Sum.inr "wordlist") none = none :=
  ⟨rfl,
   (resource_construction_roundtrip "id0" "Corpus One" none).2.1 "corpus"
     ResourceType.Corpus rfl,
   (resource_construction_roundtrip "id0" "Corpus One" none).2.2 "wordlist" rfl⟩

/-- C4: `set_name` is idempotent — renaming twice to the same name gives
the same resource state as renaming once, both at the value level and as
the in-place mutation of a heap cell. -/
theorem set_name_idempotent (r : Resource) (n : String) (h : Heap) (ref : Nat) :
    (r.set_name n).set_name n = r.set_name n ∧
    (h.setNameAt ref n).setNameAt ref n = h.setNameAt ref n := by
  constructor
  · rfl
  · cases hv : h.read ref with
    | none => simp [Heap.setNameAt, hv]
    | some v =>
        have hlt : ref < h.length := Heap.read_lt_length hv
        have h1 : Heap.read (List.set h ref ⟨v.id, n, v.type_, v.comment⟩) ref =
            some ⟨v.id, n, v.type_, v.comment⟩ :=
          List.getElem?_set_eq_of_lt _ hlt
        simp [Heap.setNameAt, hv, Heap.write, List.set_set, Resource.set_name, h1]

/-- C6: `get` with an identifier that has no stored entry fails with a
`KeyError` (in both repository implementations), and `dispatch` with a
command whose runtime type has no registered handler fails with a
`KeyError`; neither returns successfully. -/
theorem unregistered_lookups_fail :
    (∀ (h : Heap) (repo : InMemoryResourceRepository) (id : RUUID),
      dictGet repo.resources id = none →
        InMemoryResourceRepository.get h repo id = none) ∧
    (∀ (h : Heap) (repo : JsonFileResourceRepository) (id : RUUID),
      dictGet repo.resources id = none →
        JsonFileResourceRepository.get h repo id = none) ∧
    (∀ (bus : CommandBus) (h : Heap) (repo : JsonFileResourceRepository)
      (cmd : AppCommand),
      dictGet bus.cmp_map cmd.typeOf = none →
        CommandBus.dispatch bus h repo cmd = none) :=
  ⟨fun h repo id hid => by simp [InMemoryResourceRepository.get, hid],
   fun h repo id hid => by simp [JsonFileResourceRepository.get, hid],
   fun bus h repo cmd hc => by simp [CommandBus.dispatch, hc]⟩

theorem unregistered_lookups_fail_witness :
    InMemoryResourceRepository.get [] ⟨[]⟩ uuid0 = none ∧
    JsonFileResourceRepository.get [] ⟨"data.json", []⟩ uuid0 = none ∧
    CommandBus.dispatch ⟨[]⟩ [] jrepo0 (AppCommand.updateName ⟨uuid0, "X"⟩) = none :=
  ⟨unregistered_lookups_fail.1 [] ⟨[]⟩ uuid0 rfl,
   unregistered_lookups_fail.2.1 [] ⟨"data.json", []⟩ uuid0 rfl,
   unregistered_lookups_fail.2.2 ⟨[]⟩ [] jrepo0 (AppCommand.updateName ⟨uuid0, "X"⟩) rfl⟩

/-- C8: against the file holding exactly
`{"53dd4178-17fa-4725-a5ef-1a217e9946b9": {"name": "NOT SET", "type":
"lexicon"}}`, the `ListResources` query returns exactly one `ResourceDto`
with that id, name `"NOT SET"` and type `"lexicon"`, all plain strings. -/
theorem list_resources_single_entry :
    JsonFileListResources.query fs0 ⟨"data.json"⟩ =
      some [⟨"53dd4178-17fa-4725-a5ef-1a217e9946b9", "NOT SET", "lexicon"⟩] := by
  rfl

/-- C9: `load_from_path` never uses its `path` argument — it reads the
repository's remembered `_path`; the result is the same for every
argument, and depends on the file system only through the file at the
remembered path. -/
theorem load_from_path_ignores_argument (fs : FSt) (h : Heap)
    (repo : JsonFileResourceRepository) (p : FPath) :
    JsonFileResourceRepository.load_from_path fs h repo p =
      JsonFileResourceRepository.load_from_path fs h repo repo.path ∧
    ∀ fs' : FSt, FSt.read fs' repo.path = FSt.read fs repo.path →
      JsonFileResourceRepository.load_from_path fs' h repo p =
        JsonFileResourceRepository.load_from_path fs h repo p := by
  refine ⟨rfl, fun fs' hf => ?_⟩
  unfold JsonFileResourceRepository.load_from_path
  rw [hf]

theorem load_from_path_ignores_argument_witness :
    FSt.read (fs0 ++ [("x.json", [])]) "data.json" = FSt.read fs0 "data.json" ∧
    JsonFileResourceRepository.load_from_path (fs0 ++ [("x.json", [])]) []
        ⟨"data.json", []⟩ "y.json" =
      JsonFileResourceRepository.load_from_path fs0 [] ⟨"data.json", []⟩ "y.json" :=
  ⟨by decide,
   (load_from_path_ignores_argument fs0 [] ⟨"data.json", []⟩ "y.json").2
     (fs0 ++ [("x.json", [])]) (by decide)⟩

/-- C2: the end-to-end rename scenario cannot run as claimed: constructing
a `JsonFileResourceRepository` over the single-entry store raises
`TypeError`, because `load_from_path` passes the keyword `type` to
`Resource.__init__`, which declares `type_`. The repository is never
obtained, so the `UpdatingName` use case and the subsequent `get` are
unreachable. -/
theorem updating_name_scenario_blocked :
    JsonFileResourceRepository.make fs0 [] "data.json" = none := by
  rfl

/-- C1: the write/reload round trip fails on every non-empty repository:
`write_to_path` serialises the state (here one lexicon resource with a
comment), but constructing a new repository from the written file raises
`TypeError` in `load_from_path` (keyword `type` vs parameter `type_`), so
the reloaded entities the claim describes are never produced. -/
theorem write_reload_roundtrip_blocked :
    JsonFileResourceRepository.write_to_path []
        [⟨uuid0, "Lexicon Royale", ResourceType.Lexicon, some "a comment"⟩]
        ⟨"a.json", [(uuid0, 0)]⟩ (some "b.json") =
      some ([("b.json", [(uuid0, ⟨"Lexicon Royale", "lexicon"⟩)])],
        ⟨"b.json", [(uuid0, 0)]⟩) ∧
    JsonFileResourceRepository.make
        [("b.json", [(uuid0, ⟨"Lexicon Royale", "lexicon"⟩)])] [] "b.json" = none := by
  constructor <;> rfl

/-! ## Isolation helpers -/

/-- Mutating the fresh cell appended at `h.length` leaves every older cell
unchanged. -/
theorem Heap.read_mut_fresh (h : Heap) (w : Resource) (n : String) {r0 : Nat}
    (hlt : r0 < h.length) :
    Heap.read (Heap.setNameAt (h ++ [w]) h.length n) r0 = h.read r0 := by
  have hnew : Heap.read (h ++ [w]) h.length = some w :=
    List.getElem?_concat_length h w
  unfold Heap.setNameAt
  rw [hnew]
  rw [Heap.read_write_ne _ _ (Nat.ne_of_gt hlt)]
  exact Heap.read_append_left [w] hlt

/-- Mutating an old cell leaves the fresh cell appended at `h.length`
unchanged. -/
theorem Heap.read_mut_old (h : Heap) (w : Resource) (n : String) {ref : Nat}
    (hlt : ref < h.length) :
    Heap.read (Heap.setNameAt (h ++ [w]) ref n) h.length =
      Heap.read (h ++ [w]) h.length := by
  unfold Heap.setNameAt
  cases hv : Heap.read (h ++ [w]) ref with
  | none => rfl
  | some u => exact Heap.read_write_ne _ _ (Nat.ne_of_lt hlt)

/-- A `save` touches only the entry keyed by the saved resource's id: the
value observed for any other key through a grown heap is unchanged. -/
theorem dict_frame_value (h : Heap) (rs : List (RUUID × Nat)) (hwf : RepoWF h rs)
    (v : Resource) (idq : RUUID) (hne : idq ≠ v.id) (l : List Resource) (newr : Nat) :
    (dictGet (dictSet rs v.id newr) idq).bind (Heap.read (h ++ l)) =
      (dictGet rs idq).bind h.read := by
  rw [dictGet_set_ne rs newr (Ne.symm hne)]
  cases hr : dictGet rs idq with
  | none => rfl
  | some r0 =>
      obtain ⟨v0, hv0, hid0, hlt⟩ := RepoWF.lookup hwf hr
      simp only [Option.some_bind]
      exact Heap.read_append_left l hlt

/-- C10: `save` changes at most the entry keyed by the saved resource's
`id` — in both repository implementations, for every other identifier a
subsequent `get` observes the same value (or fails the same way) as
before the save; the JSON repository's remembered path is untouched too. -/
theorem save_frame (h : Heap) (ref : Nat) (v : Resource) (hv : h.read ref = some v)
    (idq : RUUID) (hne : idq ≠ v.id) :
    (∀ repo : InMemoryResourceRepository, RepoWF h repo.resources →
      ∃ h' repo', InMemoryResourceRepository.save h repo ref = some (h', repo') ∧
        InMemoryResourceRepository.getValue h' repo' idq =
          InMemoryResourceRepository.getValue h repo idq) ∧
    (∀ repo : JsonFileResourceRepository, RepoWF h repo.resources →
      ∃ h' repo', JsonFileResourceRepository.save h repo ref = some (h', repo') ∧
        JsonFileResourceRepository.getValue h' repo' idq =
          JsonFileResourceRepository.getValue h repo idq ∧
        repo'.path = repo.path) := by
  constructor
  · intro repo hwf
    refine ⟨(h.alloc v).1, ⟨dictSet repo.resources v.id (h.alloc v).2⟩, ?_, ?_⟩
    · simp [InMemoryResourceRepository.save, hv]
    · rw [mem_getValue_eq, mem_getValue_eq]
      exact dict_frame_value h repo.resources hwf v idq hne [v] (h.alloc v).2
  · intro repo hwf
    refine ⟨(h.alloc v).1,
      { repo with resources := dictSet repo.resources v.id (h.alloc v).2 }, ?_, ?_, rfl⟩
    · simp [JsonFileResourceRepository.save, hv]
    · rw [json_getValue_eq, json_getValue_eq]
      exact dict_frame_value h repo.resources hwf v idq hne [v] (h.alloc v).2

def res0v : Resource := ⟨uuid0, "NOT SET", ResourceType.Lexicon, none⟩

def heap0 : Heap := [res0v]

def uuidB : RUUID := "7e3e1046-8f5f-4d1a-9df4-6ba63bd201ce"

def resB : Resource := ⟨uuidB, "Corpus B", ResourceType.Corpus, none⟩

def heap2 : Heap := [res0v, resB]

theorem save_frame_witness :
    Heap.read heap2 1 = some resB ∧ uuid0 ≠ resB.id ∧ RepoWF heap2 [(uuid0, 0)] ∧
    (∃ h' repo', InMemoryResourceRepository.save heap2 ⟨[(uuid0, 0)]⟩ 1 = some (h', repo') ∧
      InMemoryResourceRepository.getValue h' repo' uuid0 =
        InMemoryResourceRepository.getValue heap2 ⟨[(uuid0, 0)]⟩ uuid0) :=
  ⟨rfl, by decide, by decide,
   (save_frame heap2 1 resB rfl uuid0 (by decide)).1 ⟨[(uuid0, 0)]⟩ (by decide)⟩

/-- C5: repository-held state is isolated from caller-held copies. In both
implementations, renaming the `Resource` returned by `get` does not change
what a subsequent `get` for the same identifier returns, and renaming the
caller's object after a `save` does not change what `get` for the saved
identifier returns. -/
theorem get_save_isolation (h : Heap) (n : String) :
    (∀ (repo : InMemoryResourceRepository) (id : RUUID) (h1 : Heap) (ref : Nat),
      RepoWF h repo.resources →
      InMemoryResourceRepository.get h repo id = some (h1, ref) →
      InMemoryResourceRepository.getValue (h1.setNameAt ref n) repo id =
        InMemoryResourceRepository.getValue h repo id) ∧
    (∀ (repo : JsonFileResourceRepository) (id : RUUID) (h1 : Heap) (ref : Nat),
      RepoWF h repo.resources →
      JsonFileResourceRepository.get h repo id = some (h1, ref) →
      JsonFileResourceRepository.getValue (h1.setNameAt ref n) repo id =
        JsonFileResourceRepository.getValue h repo id) ∧
    (∀ (repo : InMemoryResourceRepository) (ref : Nat) (v : Resource)
       (h1 : Heap) (repo' : InMemoryResourceRepository),
      h.read ref = some v →
      InMemoryResourceRepository.save h repo ref = some (h1, repo') →
      InMemoryResourceRepository.getValue (h1.setNameAt ref n) repo' v.id =
        InMemoryResourceRepository.getValue h1 repo' v.id) ∧
    (∀ (repo : JsonFileResourceRepository) (ref : Nat) (v : Resource)
       (h1 : Heap) (repo' : JsonFileResourceRepository),
      h.read ref = some v →
      JsonFileResourceRepository.save h repo ref = some (h1, repo') →
      JsonFileResourceRepository.getValue (h1.setNameAt ref n) repo' v.id =
        JsonFileResourceRepository.getValue h1 repo' v.id) := by
  refine ⟨fun repo id h1 ref hwf hget => ?_, fun repo id h1 ref hwf hget => ?_,
    fun repo ref v h1 repo' hv hsave => ?_, fun repo ref v h1 repo' hv hsave => ?_⟩
  · rw [mem_getValue_eq, mem_getValue_eq]
    unfold InMemoryResourceRepository.get at hget
    cases hr : dictGet repo.resources id with
    | none => rw [hr] at hget; simp at hget
    | some r0 =>
        rw [hr] at hget
        simp only [Option.some_bind, Heap.deepcopy] at hget
        cases hw : h.read r0 with
        | none => rw [hw] at hget; simp at hget
        | some w =>
            rw [hw] at hget
            simp only [Option.map_some', Option.some.injEq, Prod.mk.injEq,
              Heap.alloc] at hget
            obtain ⟨h1eq, refeq⟩ := hget
            subst h1eq; subst refeq
            obtain ⟨v0, hv0, hid0, hlt⟩ := RepoWF.lookup hwf hr
            simp only [Option.some_bind]
            exact Heap.read_mut_fresh h w n hlt
  · rw [json_getValue_eq, json_getValue_eq]
    unfold JsonFileResourceRepository.get at hget
    cases hr : dictGet repo.resources id with
    | none => rw [hr] at hget; simp at hget
    | some r0 =>
        rw [hr] at hget
        simp only [Option.some_bind, Heap.deepcopy] at hget
        cases hw : h.read r0 with
        | none => rw [hw] at hget; simp at hget
        | some w =>
            rw [hw] at hget
            simp only [Option.map_some', Option.some.injEq, Prod.mk.injEq,
              Heap.alloc] at hget
            obtain ⟨h1eq, refeq⟩ := hget
            subst h1eq; subst refeq
            obtain ⟨v0, hv0, hid0, hlt⟩ := RepoWF.lookup hwf hr
            simp only [Option.some_bind]
            exact Heap.read_mut_fresh h w n hlt
  · unfold InMemoryResourceRepository.save at hsave
    rw [hv] at hsave
    simp only [Option.map_some', Option.some.injEq, Prod.mk.injEq,
      Heap.alloc] at hsave
    obtain ⟨h1eq, rpeq⟩ := hsave
    subst h1eq; subst rpeq
    rw [mem_getValue_eq, mem_getValue_eq]
    simp only [dictGet_set_self, Option.some_bind]
    exact Heap.read_mut_old h v n (Heap.read_lt_length hv)
  · unfold JsonFileResourceRepository.save at hsave
    rw [hv] at hsave
    simp only [Option.map_some', Option.some.injEq, Prod.mk.injEq,
      Heap.alloc] at hsave
    obtain ⟨h1eq, rpeq⟩ := hsave
    subst h1eq; subst rpeq
    rw [json_getValue_eq, json_getValue_eq]
    simp only [dictGet_set_self, Option.some_bind]
    exact Heap.read_mut_old h v n (Heap.read_lt_length hv)

theorem get_save_isolation_witness :
    RepoWF heap0 [(uuid0, 0)] ∧
    InMemoryResourceRepository.get heap0 ⟨[(uuid0, 0)]⟩ uuid0 =
      some ([res0v, res0v], 1) ∧
    InMemoryResourceRepository.getValue (Heap.setNameAt [res0v, res0v] 1 "Changed")
        ⟨[(uuid0, 0)]⟩ uuid0 =
      InMemoryResourceRepository.getValue heap0 ⟨[(uuid0, 0)]⟩ uuid0 :=
  ⟨by decide, rfl,
   (get_save_isolation heap0 "Changed").1 ⟨[(uuid0, 0)]⟩ uuid0 [res0v, res0v] 1
     (by decide) rfl⟩

/-! ## Serialisation -/

/-- Under well-formedness no entry is dropped: the serialisation has one
document entry per stored resource. -/
theorem specSerialize_length (h : Heap) :
    ∀ rs : List (RUUID × Nat), (∀ p ∈ rs, refOK h p = true) →
      (specSerialize h rs).length = rs.length := by
  intro rs
  induction rs with
  | nil => intro _; rfl
  | cons p rest ih =>
      intro hok
      have hokp := hok p (List.mem_cons_self p rest)
      unfold refOK at hokp
      cases hv : h.read p.2 with
      | none => rw [hv] at hokp; exact absurd hokp (by simp)
      | some v =>
          have hrest := ih fun q hq => hok q (List.mem_cons_of_mem p hq)
          simp [specSerialize, List.filterMap_cons, hv] at hrest ⊢
          exact hrest

/-- The `to_disk` dict comprehension, run over a well-formed repository
whose keys are still disjoint from the accumulator, appends exactly the
specified serialisation. -/
theorem to_disk_go (h : Heap) :
    ∀ (rs : List (RUUID × Nat)) (acc : Store),
      (∀ p ∈ rs, refOK h p = true) → (dictKeys rs).Nodup →
      (∀ p ∈ rs, p.1 ∉ dictKeys acc) →
      rs.foldlM
        (fun acc p =>
          (h.read p.2).map fun v => dictSet acc v.id ⟨v.name, v.type_.value⟩)
        acc = some (acc ++ specSerialize h rs) := by
  intro rs
  induction rs with
  | nil => intro acc _ _ _; simp [specSerialize]
  | cons p rest ih =>
      intro acc hok hnd hfresh
      have hokp := hok p (List.mem_cons_self p rest)
      unfold refOK at hokp
      cases hv : h.read p.2 with
      | none => rw [hv] at hokp; exact absurd hokp (by simp)
      | some v =>
          rw [hv] at hokp
          have hid : v.id = p.1 := by simpa using hokp
          have hndcons : dictKeys (p :: rest) = p.1 :: dictKeys rest := rfl
          rw [hndcons] at hnd
          have hp1 : p.1 ∉ dictKeys acc := hfresh p (List.mem_cons_self p rest)
          have hset : dictSet acc v.id ⟨v.name, v.type_.value⟩ =
              acc ++ [(p.1, ⟨v.name, v.type_.value⟩)] := by
            rw [hid]; exact dictSet_fresh _ hp1
          have hfresh' : ∀ q ∈ rest,
              q.1 ∉ dictKeys (acc ++ [(p.1, (⟨v.name, v.type_.value⟩ : StoreEntry))]) := by
            intro q hq
            have hkeys : dictKeys (acc ++ [(p.1, (⟨v.name, v.type_.value⟩ : StoreEntry))]) =
                dictKeys acc ++ [p.1] := by simp [dictKeys]
            rw [hkeys]
            intro hmem
            rcases List.mem_append.mp hmem with hmem | hmem
            · exact hfresh q (List.mem_cons_of_mem p hq) hmem
            · have hq1 : q.1 = p.1 := by simpa using hmem
              have : p.1 ∈ dictKeys rest := by
                rw [← hq1]
                exact List.mem_map_of_mem Prod.fst hq
              exact (List.nodup_cons.mp hnd).1 this
          have hrec := ih (acc ++ [(p.1, ⟨v.name, v.type_.value⟩)])
            (fun q hq => hok q (List.mem_cons_of_mem p hq))
            (List.nodup_cons.mp hnd).2 hfresh'
          simp only [List.foldlM_cons, hv, Option.map_some', hset,
            Option.bind_eq_bind, Option.some_bind]
          rw [hrec]
          simp [specSerialize, List.filterMap_cons, hv, hid, List.append_assoc]

/-- Under well-formedness `to_disk` succeeds and produces exactly the
serialisation described by the specification. -/
theorem to_disk_eq_specSerialize (h : Heap) (rs : List (RUUID × Nat))
    (hwf : RepoWF h rs) :
    JsonFileResourceRepository.to_disk h rs = some (specSerialize h rs) := by
  have hgo := to_disk_go h rs [] hwf.2 hwf.1 (by simp [dictKeys])
  simpa [JsonFileResourceRepository.to_disk] using hgo

/-- C7: for a well-formed repository state, `write_to_path` with an
explicit path serialises the full in-memory mapping — one document entry
per stored resource, keyed by the stringified identifier, carrying the
name and the type's raw string value — writes it at that path and updates
the remembered path to it; with no argument it writes the same
serialisation at the originally remembered path, leaving the state
unchanged. -/
theorem write_to_path_spec (fs : FSt) (h : Heap) (repo : JsonFileResourceRepository)
    (hwf : RepoWF h repo.resources) :
    (specSerialize h repo.resources).length = repo.resources.length ∧
    (∀ p, JsonFileResourceRepository.write_to_path fs h repo (some p) =
      some (FSt.write fs p (specSerialize h repo.resources),
        { repo with path := p })) ∧
    JsonFileResourceRepository.write_to_path fs h repo none =
      some (FSt.write fs repo.path (specSerialize h repo.resources), repo) := by
  have hs := to_disk_eq_specSerialize h repo.resources hwf
  refine ⟨specSerialize_length h repo.resources hwf.2, fun p => ?_, ?_⟩
  · simp [JsonFileResourceRepository.write_to_path, hs]
  · simp [JsonFileResourceRepository.write_to_path, hs]

theorem write_to_path_spec_witness :
    RepoWF heap0 jrepo0.resources ∧
    JsonFileResourceRepository.write_to_path fs0 heap0 jrepo0 (some "out.json") =
      some (FSt.write fs0 "out.json" (specSerialize heap0 jrepo0.resources),
        { jrepo0 with path := "out.json" }) :=
  ⟨by decide, (write_to_path_spec fs0 heap0 jrepo0 (by decide)).2.1 "out.json"⟩
